import Mathlib

/-!
Verification of the bidding-analysis repository's core numerical scripts.

The Python sources embedded here (over exact rational arithmetic ℚ in
place of IEEE floats) are:
  * `data분석/monte_carlo_simulation.py` (and its near-identical variants
    `monte_carlo_simulation_korean.py`, `monte_carlo_korean_v2.py`):
    the multi-reserve-price Monte Carlo simulator;
  * `data분석/analyze_first_place_distribution.py`: historical winner
    statistics, density-bucket histograms and digit-pattern analysis.
-/

namespace Bidding

/-- `np.linspace lo hi n`: `n` evenly spaced points from `lo` to `hi`,
endpoints included (point `i` is `lo + (hi-lo)·i/(n-1)`). -/
def linspace (lo hi : ℚ) (n : ℕ) : List ℚ :=
  (List.range n).map (fun i : ℕ => lo + (hi - lo) * (i : ℚ) / ((n : ℚ) - 1))

/-- `monte_carlo_simulation.py` constants: `BASE_AMOUNT = 39_000_000`. -/
def BASE_AMOUNT : ℚ := 39000000

/-- `AGENCY_RATE = 87.745`. -/
def AGENCY_RATE : ℚ := 87745 / 1000

/-- `VARIANCE_RANGE = 0.03`. -/
def VARIANCE_RANGE : ℚ := 3 / 100

/-- `N_SIMULATIONS = 10_000`. -/
def N_SIMULATIONS : ℕ := 10000

/-- `N_PRELIMINARY_PRICES = 15`. -/
def N_PRELIMINARY_PRICES : ℕ := 15

/-- `N_SELECTED = 4`. -/
def N_SELECTED : ℕ := 4

/-- `monte_carlo_simulation.py` lines 38-40:
`preliminary_prices = np.linspace(BASE_AMOUNT*(1-VARIANCE_RANGE),
BASE_AMOUNT*(1+VARIANCE_RANGE), 15)`. -/
def preliminary_prices (base v : ℚ) : List ℚ :=
  linspace (base * (1 - v)) (base * (1 + v)) N_PRELIMINARY_PRICES

/-- The global NumPy RNG state.  The Mersenne-twister internals are
abstracted to a single word evolved by a deterministic step function;
what matters for the claims is that the state is a pure value that
`np.random.seed` overwrites. -/
abbrev RngState : Type := ℕ

/-- `np.random.seed s`: resets the global RNG state as a pure function of
the seed alone, discarding whatever state was current. -/
def npSeed (seed : ℕ) : RngState := seed

/-- One step of the (abstracted, deterministic) generator: returns a raw
draw and the successor state. -/
def rngNext (s : RngState) : ℕ × RngState :=
  let s' := (s * 6364136223846793005 + 1442695040888963407) % 2 ^ 64
  (s' / 2 ^ 16, s')

/-- `np.random.choice(pool, k, replace=False)`: draw `k` elements from
`pool` without replacement, each draw removing the chosen position from
the remaining pool. -/
def choiceNoReplace (pool : List ℚ) (k : ℕ) (s : RngState) :
    List ℚ × RngState :=
  match k with
  | 0 => ([], s)
  | k + 1 =>
    if pool.isEmpty then ([], s)
    else
      let (r, s') := rngNext s
      let idx := r % pool.length
      let x := pool.getD idx 0
      let (xs, s'') := choiceNoReplace (pool.eraseIdx idx) k s'
      (x :: xs, s'')

/-- One Monte Carlo trial (`monte_carlo_simulation.py` lines 53-66). -/
structure Outcome where
  reservePrice : ℚ
  minWinningPrice : ℚ
  baseToFloorRate : ℚ
  deriving Repr, DecidableEq

/-- The body of the simulation loop: `reserve_price = np.mean(selected)`,
`min_winning_price = reserve_price * (AGENCY_RATE/100)`,
`base_to_min_winning_rate = (min_winning_price / BASE_AMOUNT) * 100`. -/
def mcTrial (base rate : ℚ) (selected : List ℚ) : Outcome :=
  let rp := selected.sum / selected.length
  let mwp := rp * (rate / 100)
  { reservePrice := rp
    minWinningPrice := mwp
    baseToFloorRate := mwp / base * 100 }

/-- The simulation loop `for i in range(N_SIMULATIONS)`, threading the
global RNG state through the successive `np.random.choice` calls. -/
def simLoop (prices : List ℚ) (base rate : ℚ) :
    ℕ → RngState → List Outcome
  | 0, _ => []
  | n + 1, s =>
    let (sel, s') := choiceNoReplace prices N_SELECTED s
    mcTrial base rate sel :: simLoop prices base rate n s'

/-- A whole run of the Reserve-Price Simulator.  `g` is the ambient
global RNG state on entry; the script calls `np.random.seed(seed)`
(line 47) before the loop, so `g` is overwritten and the run depends
only on the parameters, the seed and the trial count. -/
def runSimulation (_g : RngState) (base v rate : ℚ) (seed n : ℕ) :
    List Outcome :=
  simLoop (preliminary_prices base v) base rate n (npSeed seed)

/-- The `base_to_min_winning_rates` output array of a run. -/
def baseToFloorRates (g : RngState) (base v rate : ℚ) (seed n : ℕ) :
    List ℚ :=
  (runSimulation g base v rate seed n).map (·.baseToFloorRate)

/-- Arithmetic mean of a list (`np.mean`). -/
def meanQ (xs : List ℚ) : ℚ := xs.sum / xs.length

/-- The full fixed-scenario run of `monte_carlo_simulation.py`
(base 39,000,000; ±3 %; rate 87.745; seed 42; 10,000 trials). -/
def mcRun : List Outcome :=
  runSimulation 0 BASE_AMOUNT VARIANCE_RANGE AGENCY_RATE 42 N_SIMULATIONS

/-- Output array `reserve_prices`. -/
def reserve_prices : List ℚ := mcRun.map (·.reservePrice)

/-- Output array `min_winning_prices`. -/
def min_winning_prices : List ℚ := mcRun.map (·.minWinningPrice)

/-- Output array `base_to_min_winning_rates`. -/
def base_to_min_winning_rates : List ℚ := mcRun.map (·.baseToFloorRate)

theorem linspace_length (lo hi : ℚ) (n : ℕ) : (linspace lo hi n).length = n := by
  simp only [linspace, List.length_map, List.length_range]

theorem linspace_getD (lo hi : ℚ) {n i : ℕ} (h : i < n) :
    (linspace lo hi n).getD i 0 = lo + (hi - lo) * i / ((n : ℚ) - 1) := by
  unfold linspace
  rw [List.getD_eq_getElem?_getD, List.getElem?_map, List.getElem?_range h]
  rfl

theorem mem_linspace {lo hi : ℚ} {n : ℕ} {x : ℚ} (hx : x ∈ linspace lo hi n) :
    ∃ i : ℕ, i < n ∧ x = lo + (hi - lo) * i / ((n : ℚ) - 1) := by
  rcases List.mem_map.mp hx with ⟨i, hmem, heq⟩
  exact ⟨i, List.mem_range.mp hmem, heq.symm⟩

theorem preliminary_prices_bounds {base v x : ℚ} (hb : 0 ≤ base) (hv : 0 ≤ v)
    (hx : x ∈ preliminary_prices base v) :
    base * (1 - v) ≤ x ∧ x ≤ base * (1 + v) := by
  obtain ⟨i, hilt, hxeq⟩ := mem_linspace hx
  have h14 : ((N_PRELIMINARY_PRICES : ℚ)) - 1 = 14 := by
    norm_num [N_PRELIMINARY_PRICES]
  rw [h14] at hxeq
  have hi14 : (i : ℚ) ≤ 14 := by
    have h : i ≤ 14 := Nat.lt_succ_iff.mp (by
      simpa [N_PRELIMINARY_PRICES] using hilt)
    exact_mod_cast h
  have hipos : (0 : ℚ) ≤ (i : ℚ) := by positivity
  have hwidth : (0 : ℚ) ≤ base * (1 + v) - base * (1 - v) := by nlinarith
  subst hxeq
  constructor
  · have h0 : 0 ≤ (base * (1 + v) - base * (1 - v)) * i / 14 :=
      div_nonneg (mul_nonneg hwidth hipos) (by norm_num)
    linarith
  · have h1 : (base * (1 + v) - base * (1 - v)) * i / 14 ≤
        base * (1 + v) - base * (1 - v) := by
      rw [div_le_iff₀ (by norm_num : (0:ℚ) < 14)]
      nlinarith
    linarith

theorem sum_le_mul_length {xs : List ℚ} {b : ℚ} (h : ∀ x ∈ xs, x ≤ b) :
    xs.sum ≤ xs.length * b := by
  induction xs with
  | nil => simp
  | cons x t ih =>
    have ht := ih (fun y hy => h y (by simp [hy]))
    have hx := h x (by simp)
    simp only [List.sum_cons, List.length_cons]
    push_cast
    linarith

theorem mul_length_le_sum {xs : List ℚ} {a : ℚ} (h : ∀ x ∈ xs, a ≤ x) :
    xs.length * a ≤ xs.sum := by
  induction xs with
  | nil => simp
  | cons x t ih =>
    have ht := ih (fun y hy => h y (by simp [hy]))
    have hx := h x (by simp)
    simp only [List.sum_cons, List.length_cons]
    push_cast
    linarith

theorem meanQ_mem_Icc {xs : List ℚ} {a b : ℚ} (hne : xs ≠ [])
    (h : ∀ x ∈ xs, a ≤ x ∧ x ≤ b) : a ≤ meanQ xs ∧ meanQ xs ≤ b := by
  have hlen : 0 < (xs.length : ℚ) := by
    have := List.length_pos.mpr hne
    exact_mod_cast this
  constructor
  · rw [meanQ, le_div_iff₀ hlen]
    have := mul_length_le_sum (fun x hx => (h x hx).1)
    linarith
  · rw [meanQ, div_le_iff₀ hlen]
    have := sum_le_mul_length (fun x hx => (h x hx).2)
    linarith

theorem getD_mem_of_lt {l : List ℚ} {n : ℕ} (h : n < l.length) :
    l.getD n 0 ∈ l := by
  rw [List.getD_eq_getElem?_getD, List.getElem?_eq_getElem h]
  exact List.getElem_mem h

theorem choiceNoReplace_length (k : ℕ) :
    ∀ (pool : List ℚ) (s : RngState),
      (choiceNoReplace pool k s).1.length = min k pool.length := by
  induction k with
  | zero => intro pool s; simp [choiceNoReplace]
  | succ k ih =>
    intro pool s
    by_cases hp : pool.isEmpty
    · have : pool.length = 0 := by simpa [List.isEmpty_iff_length_eq_zero] using hp
      simp [choiceNoReplace, hp, this]
    · have hlen : 0 < pool.length := by
        cases pool with
        | nil => simp at hp
        | cons a t => simp
      have hidx : (rngNext s).1 % pool.length < pool.length :=
        Nat.mod_lt _ hlen
      simp only [choiceNoReplace, hp]
      simp only [Bool.false_eq_true, if_false, List.length_cons]
      rw [ih]
      rw [List.length_eraseIdx]
      simp only [hidx, if_true]
      omega

theorem choiceNoReplace_mem (k : ℕ) :
    ∀ (pool : List ℚ) (s : RngState),
      ∀ x ∈ (choiceNoReplace pool k s).1, x ∈ pool := by
  induction k with
  | zero => intro pool s x hx; simp [choiceNoReplace] at hx
  | succ k ih =>
    intro pool s x hx
    by_cases hp : pool.isEmpty
    · simp [choiceNoReplace, hp] at hx
    · have hlen : 0 < pool.length := by
        cases pool with
        | nil => simp at hp
        | cons a t => simp
      have hidx : (rngNext s).1 % pool.length < pool.length :=
        Nat.mod_lt _ hlen
      simp only [choiceNoReplace, hp, Bool.false_eq_true, if_false,
        List.mem_cons] at hx
      rcases hx with hx | hx
      · subst hx; exact getD_mem_of_lt hidx
      · exact (List.eraseIdx_sublist pool _).mem (ih _ _ x hx)

theorem perm_getD_cons_eraseIdx :
    ∀ (l : List ℚ) (i : ℕ), i < l.length →
      l.Perm (l.getD i 0 :: l.eraseIdx i)
  | [], i, h => absurd h (by simp)
  | x :: t, 0, _ => by simp [List.eraseIdx]
  | x :: t, i + 1, h => by
    have ht : i < t.length := by simpa using h
    have hrec := perm_getD_cons_eraseIdx t i ht
    have hgd : (x :: t).getD (i + 1) 0 = t.getD i 0 := rfl
    have her : (x :: t).eraseIdx (i + 1) = x :: t.eraseIdx i := rfl
    rw [hgd, her]
    exact (hrec.cons x).trans (List.Perm.swap _ _ _)

theorem choiceNoReplace_subperm (k : ℕ) :
    ∀ (pool : List ℚ) (s : RngState),
      List.Subperm (choiceNoReplace pool k s).1 pool := by
  induction k with
  | zero => intro pool s; simpa [choiceNoReplace] using List.nil_subperm
  | succ k ih =>
    intro pool s
    by_cases hp : pool.isEmpty
    · simpa [choiceNoReplace, hp] using List.nil_subperm
    · have hlen : 0 < pool.length := by
        cases pool with
        | nil => simp at hp
        | cons a t => simp
      have hidx : (rngNext s).1 % pool.length < pool.length :=
        Nat.mod_lt _ hlen
      simp only [choiceNoReplace, hp, Bool.false_eq_true, if_false]
      have h1 := ih (pool.eraseIdx ((rngNext s).1 % pool.length)) (rngNext s).2
      have h2 := (List.subperm_cons
        (pool.getD ((rngNext s).1 % pool.length) 0)).mpr h1
      exact h2.trans (perm_getD_cons_eraseIdx pool _ hidx).symm.subperm

theorem simLoop_length (prices : List ℚ) (base rate : ℚ) :
    ∀ (n : ℕ) (s : RngState), (simLoop prices base rate n s).length = n := by
  intro n
  induction n with
  | zero => intro s; simp [simLoop]
  | succ n ih => intro s; simp [simLoop, ih]

theorem mem_simLoop (prices : List ℚ) (base rate : ℚ) :
    ∀ {n : ℕ} {s : RngState} {o : Outcome},
      o ∈ simLoop prices base rate n s →
      ∃ s', o = mcTrial base rate (choiceNoReplace prices N_SELECTED s').1 := by
  intro n
  induction n with
  | zero => intro s o ho; simp [simLoop] at ho
  | succ n ih =>
    intro s o ho
    simp only [simLoop, List.mem_cons] at ho
    rcases ho with ho | ho
    · exact ⟨s, ho⟩
    · exact ih ho

/-- Every outcome of a simulation run satisfies the interval invariants:
the reserve price is a mean of preliminary prices, hence lies within the
variance band of the base amount, and the derived rate lies within the
variance band of the agency rate. -/
theorem outcome_bounds {base v rate : ℚ} (hb : 0 < base) (hv : 0 ≤ v)
    (hr : 0 ≤ rate) (g : RngState) (seed n : ℕ) :
    ∀ o ∈ runSimulation g base v rate seed n,
      (base * (1 - v) ≤ o.reservePrice ∧ o.reservePrice ≤ base * (1 + v)) ∧
      (base * (1 - v) * (rate / 100) ≤ o.minWinningPrice ∧
        o.minWinningPrice ≤ base * (1 + v) * (rate / 100)) ∧
      (rate * (1 - v) ≤ o.baseToFloorRate ∧
        o.baseToFloorRate ≤ rate * (1 + v)) := by
  intro o ho
  obtain ⟨s', rfl⟩ := mem_simLoop _ _ _ ho
  set sel := (choiceNoReplace (preliminary_prices base v) N_SELECTED s').1
    with hsel
  have hlenp : (preliminary_prices base v).length = N_PRELIMINARY_PRICES :=
    linspace_length _ _ _
  have hlen : sel.length = 4 := by
    rw [hsel, choiceNoReplace_length, hlenp]
    rfl
  have hne : sel ≠ [] := by
    intro habs; rw [habs] at hlen; simp at hlen
  have hbnd : ∀ x ∈ sel, base * (1 - v) ≤ x ∧ x ≤ base * (1 + v) := by
    intro x hx
    exact preliminary_prices_bounds hb.le hv
      (choiceNoReplace_mem _ _ _ _ hx)
  have hmean := meanQ_mem_Icc hne hbnd
  have hrp : (mcTrial base rate sel).reservePrice = meanQ sel := rfl
  have hmwp : (mcTrial base rate sel).minWinningPrice =
      meanQ sel * (rate / 100) := rfl
  have hbtf : (mcTrial base rate sel).baseToFloorRate =
      meanQ sel * (rate / 100) / base * 100 := rfl
  have hr100 : (0:ℚ) ≤ rate / 100 := by positivity
  refine ⟨⟨by rw [hrp]; exact hmean.1, by rw [hrp]; exact hmean.2⟩, ⟨?_, ?_⟩, ?_, ?_⟩
  · rw [hmwp]; exact mul_le_mul_of_nonneg_right hmean.1 hr100
  · rw [hmwp]; exact mul_le_mul_of_nonneg_right hmean.2 hr100
  · rw [hbtf]
    have heq : meanQ sel * (rate / 100) / base * 100 =
        meanQ sel * rate / base := by field_simp; ring
    rw [heq, le_div_iff₀ hb]
    nlinarith [hmean.1]
  · rw [hbtf]
    have heq : meanQ sel * (rate / 100) / base * 100 =
        meanQ sel * rate / base := by field_simp; ring
    rw [heq, div_le_iff₀ hb]
    nlinarith [hmean.2]

end Bidding

namespace Bidding

/-- C1: the Reserve-Price Simulator constructs exactly 15 evenly spaced
preliminary prices spanning `[base·(1−v), base·(1+v)]` (point `i` is
`lo + i·(hi−lo)/14`, the first point is the lower endpoint, the last the
upper, and consecutive points differ by the constant step `(hi−lo)/14`);
every trial draws 4 preliminary prices without replacement (a length-4
sub-permutation of the price list), takes their arithmetic mean as the
trial's `reservePrice`, and derives
`minWinningPrice = reservePrice·rate/100` and
`baseToFloorRate = minWinningPrice/base·100`. -/
theorem C1_simulator_construction (base v rate : ℚ) :
    (preliminary_prices base v).length = 15 ∧
    (∀ i : ℕ, i < 15 →
      (preliminary_prices base v).getD i 0 =
        base * (1 - v) + (base * (1 + v) - base * (1 - v)) * i / 14) ∧
    (preliminary_prices base v).getD 0 0 = base * (1 - v) ∧
    (preliminary_prices base v).getD 14 0 = base * (1 + v) ∧
    (∀ i : ℕ, i + 1 < 15 →
      (preliminary_prices base v).getD (i + 1) 0 -
        (preliminary_prices base v).getD i 0 =
        (base * (1 + v) - base * (1 - v)) / 14) ∧
    (∀ s : RngState,
      (choiceNoReplace (preliminary_prices base v) N_SELECTED s).1.length = 4 ∧
      List.Subperm (choiceNoReplace (preliminary_prices base v) N_SELECTED s).1
        (preliminary_prices base v)) ∧
    (∀ sel : List ℚ,
      (mcTrial base rate sel).reservePrice = meanQ sel ∧
      (mcTrial base rate sel).minWinningPrice =
        (mcTrial base rate sel).reservePrice * rate / 100 ∧
      (mcTrial base rate sel).baseToFloorRate =
        (mcTrial base rate sel).minWinningPrice / base * 100) := by
  have hgetD : ∀ i : ℕ, i < 15 →
      (preliminary_prices base v).getD i 0 =
        base * (1 - v) + (base * (1 + v) - base * (1 - v)) * i / 14 := by
    intro i hi
    have h := linspace_getD (base * (1 - v)) (base * (1 + v))
      (n := N_PRELIMINARY_PRICES) (i := i) (by simpa [N_PRELIMINARY_PRICES] using hi)
    rw [preliminary_prices, h]
    norm_num [N_PRELIMINARY_PRICES]
  refine ⟨by simpa [N_PRELIMINARY_PRICES] using
      linspace_length (base * (1 - v)) (base * (1 + v)) N_PRELIMINARY_PRICES,
    hgetD, ?_, ?_, ?_, ?_, ?_⟩
  · rw [hgetD 0 (by norm_num)]; norm_num
  · rw [hgetD 14 (by norm_num)]; ring
  · intro i hi
    rw [hgetD (i + 1) hi, hgetD i (by omega)]
    push_cast
    ring
  · intro s
    constructor
    · rw [choiceNoReplace_length]
      simp [linspace_length, preliminary_prices, N_PRELIMINARY_PRICES, N_SELECTED]
    · exact choiceNoReplace_subperm N_SELECTED (preliminary_prices base v) s
  · intro sel
    refine ⟨rfl, ?_, rfl⟩
    show meanQ sel * (rate / 100) = meanQ sel * rate / 100
    ring

/-- C2: determinism — the script reseeds the global RNG with the fixed
seed before the loop, so two runs with identical `baseAmount`,
`varianceRange`, `agencyFloorRate`, seed and trial count produce
identical `baseToFloorRate` arrays regardless of the ambient RNG states
`g₁`, `g₂` the two runs start from. -/
theorem C2_seeded_determinism (g₁ g₂ : RngState) (base v rate : ℚ)
    (seed n : ℕ) :
    baseToFloorRates g₁ base v rate seed n =
      baseToFloorRates g₂ base v rate seed n := rfl

/-- C10: every simulated trial's `reservePrice` lies within
`[base·(1−v), base·(1+v)]`, and consequently every `baseToFloorRate`
element lies within `[rate·(1−v), rate·(1+v)]`. -/
theorem C10_trial_invariants {base v rate : ℚ} (hb : 0 < base)
    (hv : 0 ≤ v) (hr : 0 ≤ rate) (g : RngState) (seed n : ℕ) :
    ∀ o ∈ runSimulation g base v rate seed n,
      (base * (1 - v) ≤ o.reservePrice ∧ o.reservePrice ≤ base * (1 + v)) ∧
      (rate * (1 - v) ≤ o.baseToFloorRate ∧
        o.baseToFloorRate ≤ rate * (1 + v)) := by
  intro o ho
  obtain ⟨h1, _, h3⟩ := outcome_bounds hb hv hr g seed n o ho
  exact ⟨h1, h3⟩

/-- Witness for C10 at the concrete announcement parameters. -/
theorem C10_trial_invariants_witness :
    (0:ℚ) < 39000000 ∧ (0:ℚ) ≤ 3 / 100 ∧ (0:ℚ) ≤ 87745 / 1000 ∧
    ∀ o ∈ runSimulation 0 39000000 (3 / 100) (87745 / 1000) 42 3,
      ((39000000 * (1 - 3 / 100) : ℚ) ≤ o.reservePrice ∧
        o.reservePrice ≤ 39000000 * (1 + 3 / 100)) ∧
      ((87745 / 1000 * (1 - 3 / 100) : ℚ) ≤ o.baseToFloorRate ∧
        o.baseToFloorRate ≤ 87745 / 1000 * (1 + 3 / 100)) :=
  ⟨by norm_num, by norm_num, by norm_num,
    C10_trial_invariants (by norm_num) (by norm_num) (by norm_num) 0 42 3⟩

end Bidding

namespace Bidding

theorem mcRun_length : mcRun.length = 10000 := by
  rw [mcRun, runSimulation, simLoop_length]
  rfl

theorem mcRun_bounds : ∀ o ∈ mcRun,
    ((37830000 : ℚ) ≤ o.reservePrice ∧ o.reservePrice ≤ 40170000) ∧
    ((37830000 * (87745 / 100000) : ℚ) ≤ o.minWinningPrice ∧
      o.minWinningPrice ≤ 40170000 * (87745 / 100000)) ∧
    ((87745 / 1000 * (97 / 100) : ℚ) ≤ o.baseToFloorRate ∧
      o.baseToFloorRate ≤ 87745 / 1000 * (103 / 100)) := by
  intro o ho
  have h := outcome_bounds
    (by norm_num [BASE_AMOUNT] : (0:ℚ) < BASE_AMOUNT)
    (by norm_num [VARIANCE_RANGE] : (0:ℚ) ≤ VARIANCE_RANGE)
    (by norm_num [AGENCY_RATE] : (0:ℚ) ≤ AGENCY_RATE) 0 42 N_SIMULATIONS o ho
  obtain ⟨⟨h1a, h1b⟩, ⟨h2a, h2b⟩, h3a, h3b⟩ := h
  norm_num [BASE_AMOUNT, VARIANCE_RANGE, AGENCY_RATE] at h1a h1b h2a h2b h3a h3b
  refine ⟨⟨by linarith, by linarith⟩, ⟨by norm_num; linarith, by norm_num; linarith⟩,
    by norm_num; linarith, by norm_num; linarith⟩

/-- C4: in the fixed scenario (base 39,000,000; rate 87.745; ±3 %;
15 preliminary prices; 10,000 trials; fixed seed 42) all three output
arrays have length 10,000, every element is a well-defined finite
rational lying in its variance band (in particular no NaN can arise),
and the mean of `reserve_prices` lies within
`[37,830,000, 40,170,000]`. -/
theorem C4_fixed_scenario :
    reserve_prices.length = 10000 ∧
    min_winning_prices.length = 10000 ∧
    base_to_min_winning_rates.length = 10000 ∧
    (∀ x ∈ reserve_prices, (37830000 : ℚ) ≤ x ∧ x ≤ 40170000) ∧
    (∀ x ∈ min_winning_prices,
      (37830000 * (87745 / 100000) : ℚ) ≤ x ∧
        x ≤ 40170000 * (87745 / 100000)) ∧
    (∀ x ∈ base_to_min_winning_rates,
      (87745 / 1000 * (97 / 100) : ℚ) ≤ x ∧
        x ≤ 87745 / 1000 * (103 / 100)) ∧
    (37830000 : ℚ) ≤ meanQ reserve_prices ∧
    meanQ reserve_prices ≤ 40170000 := by
  have hrb : ∀ x ∈ reserve_prices, (37830000 : ℚ) ≤ x ∧ x ≤ 40170000 := by
    intro x hx
    obtain ⟨o, ho, rfl⟩ := List.mem_map.mp hx
    exact (mcRun_bounds o ho).1
  have hlenr : reserve_prices.length = 10000 := by
    rw [reserve_prices, List.length_map, mcRun_length]
  have hne : reserve_prices ≠ [] := by
    intro habs; rw [habs] at hlenr; simp at hlenr
  refine ⟨hlenr,
    by rw [min_winning_prices, List.length_map, mcRun_length],
    by rw [base_to_min_winning_rates, List.length_map, mcRun_length],
    hrb, ?_, ?_, meanQ_mem_Icc hne hrb⟩
  · intro x hx
    obtain ⟨o, ho, rfl⟩ := List.mem_map.mp hx
    exact (mcRun_bounds o ho).2.1
  · intro x hx
    obtain ⟨o, ho, rfl⟩ := List.mem_map.mp hx
    exact (mcRun_bounds o ho).2.2

end Bidding

namespace Bidding

/-- One row of the historical spreadsheet (a `HistoricalBidRecord`):
the `순위` column (rank; 1 = winner) and the `기초대비투찰률` column
(bid ratio to base, a percentage). -/
structure BidRecord where
  rank : ℤ
  bidRatioToBase : ℚ
  deriving Repr, DecidableEq

/-- `df[df['순위'] == 1]` — the winner filter
(`analyze_first_place_distribution.py` line 17,
`monte_carlo_simulation.py` line 112).  A pure filter: it builds a new
list and never mutates its input. -/
def filterWinners (df : List BidRecord) : List BidRecord :=
  df.filter (fun r => r.rank == 1)

/-- `pd.read_excel` applied to a path that may not resolve to a file:
`analyze_first_place_distribution.py` line 14 reads the spreadsheet with
no existence guard, so a missing file surfaces as a raised
`FileNotFoundError`. -/
def read_excel (file : Option (List BidRecord)) :
    Except String (List BidRecord) :=
  match file with
  | none => .error "FileNotFoundError"
  | some df => .ok df

/-- `np.ndarray.min`: raises `ValueError` on an empty array. -/
def npMin (xs : List ℚ) : Except String ℚ :=
  match xs with
  | [] => .error "ValueError: zero-size array to reduction operation minimum which has no identity"
  | x :: rest => .ok (rest.foldl min x)

/-- `np.ndarray.max`: raises `ValueError` on an empty array. -/
def npMax (xs : List ℚ) : Except String ℚ :=
  match xs with
  | [] => .error "ValueError: zero-size array to reduction operation maximum which has no identity"
  | x :: rest => .ok (rest.foldl max x)

/-- The winner-statistics block produced by
`analyze_first_place_distribution.py` lines 20-31 (count, mean, min,
max of the winners' `기초대비투찰률`; the script also prints median and
std, which like the mean yield NaN rather than raising on an empty
array and are elided here). -/
structure BasicStats where
  dataCount : ℕ
  mean : ℚ
  lo : ℚ
  hi : ℚ
  deriving Repr, DecidableEq

/-- Historical Winner Statistics as `analyze_first_place_distribution.py`
computes it: load the file (no existence guard), filter to rank 1, then
reduce.  `rates.min()` (line 29) is the first reduction that raises on
an empty winner set. -/
def analyze_first_place (file : Option (List BidRecord)) :
    Except String BasicStats :=
  match read_excel file with
  | .error e => .error e
  | .ok df =>
    let df_first := filterWinners df
    let rates := df_first.map (·.bidRatioToBase)
    match npMin rates, npMax rates with
    | .error e, _ => .error e
    | .ok _, .error e => .error e
    | .ok lo, .ok hi =>
      .ok { dataCount := df_first.length, mean := meanQ rates,
            lo := lo, hi := hi }

/-- The historical block of `monte_carlo_simulation.py` lines 106-123:
guarded by `data_file.exists()`; a missing file leaves `df_first = None`
(a structured unavailable marker) instead of raising. -/
def mc_historical_first (file : Option (List BidRecord)) :
    Option (List BidRecord) :=
  match file with
  | none => none
  | some df => some (filterWinners df)

/-- C7: filtering the historical records to `rank == 1` is idempotent —
applying the winner filter twice yields exactly the same record list as
applying it once (and, being a pure function on an immutable list, the
filter has no side effects on its input). -/
theorem C7_winner_filter_idempotent (df : List BidRecord) :
    filterWinners (filterWinners df) = filterWinners df := by
  simp [filterWinners, List.filter_filter]

/-- C3 counterexample: on an empty historical dataset (0 winner rows)
the Historical Winner Statistics pass of
`analyze_first_place_distribution.py` raises an uncaught `ValueError`
from the empty-array `min` reduction — it does not return a structured
"unavailable" result. -/
theorem C3_counterexample :
    analyze_first_place (some []) =
      Except.error "ValueError: zero-size array to reduction operation minimum which has no identity" := rfl

/-- C3 amended: only the missing-file case of `monte_carlo_simulation.py`
returns a structured unavailable marker (`df_first = None`) instead of
raising; `analyze_first_place_distribution.py` raises an uncaught
`FileNotFoundError` when the data file is absent and an uncaught
`ValueError` when the historical winner set is empty. -/
theorem C3_amended_error_behaviour (df : List BidRecord)
    (h : filterWinners df = []) :
    mc_historical_first none = none ∧
    (∀ d : List BidRecord,
      mc_historical_first (some d) = some (filterWinners d)) ∧
    analyze_first_place none = Except.error "FileNotFoundError" ∧
    analyze_first_place (some df) =
      Except.error "ValueError: zero-size array to reduction operation minimum which has no identity" := by
  refine ⟨rfl, fun d => rfl, rfl, ?_⟩
  simp only [analyze_first_place, read_excel, h]
  rfl

/-- Witness for C3's amended theorem at the empty dataset. -/
theorem C3_amended_error_behaviour_witness :
    filterWinners [] = [] ∧
    (mc_historical_first none = none ∧
      (∀ d : List BidRecord,
        mc_historical_first (some d) = some (filterWinners d)) ∧
      analyze_first_place none = Except.error "FileNotFoundError" ∧
      analyze_first_place (some []) =
        Except.error "ValueError: zero-size array to reduction operation minimum which has no identity") :=
  ⟨rfl, C3_amended_error_behaviour [] rfl⟩

end Bidding

namespace Bidding

/-- The bucket index `np.histogram` assigns to `x` for `k` uniform
buckets of width `w` starting at `start`
(`analyze_first_place_distribution.py` lines 35-36 and 50-51 call
`np.histogram` with the uniform `np.arange`-generated edges): bucket `i`
covers `[start+i·w, start+(i+1)·w)` except the last, which also contains
its right edge; values outside `[start, start+k·w]` fall in no bucket. -/
def bucketOf (start w : ℚ) (k : ℕ) (x : ℚ) : Option ℕ :=
  if 0 < k ∧ start ≤ x ∧ x ≤ start + k * w then
    some (min (⌊(x - start) / w⌋.toNat) (k - 1))
  else none

/-- Bucket occupancy count `hist[i]`. -/
def bucketCount (start w : ℚ) (k : ℕ) (data : List ℚ) (i : ℕ) : ℕ :=
  (data.filter (fun x => decide (bucketOf start w k x = some i))).length

/-- Number of data values inside the scan range `[start, start+k·w]`. -/
def inRangeCount (start w : ℚ) (k : ℕ) (data : List ℚ) : ℕ :=
  (data.filter (fun x => decide (start ≤ x ∧ x ≤ start + k * w))).length

theorem bucketOf_lt_of_eq_some {start w : ℚ} {k i : ℕ} {x : ℚ}
    (h : bucketOf start w k x = some i) : i < k := by
  rw [bucketOf] at h
  split at h
  · rename_i hcond
    have hk : 0 < k := hcond.1
    have := Option.some.inj h
    omega
  · exact absurd h (by simp)

theorem bucketCount_cons (start w : ℚ) (k : ℕ) (x : ℚ) (xs : List ℚ)
    (i : ℕ) :
    bucketCount start w k (x :: xs) i =
      (if bucketOf start w k x = some i then 1 else 0) +
        bucketCount start w k xs i := by
  simp only [bucketCount, List.filter_cons]
  by_cases h : bucketOf start w k x = some i <;> simp [h, Nat.add_comm]

theorem inRangeCount_cons (start w : ℚ) (k : ℕ) (x : ℚ) (xs : List ℚ) :
    inRangeCount start w k (x :: xs) =
      (if start ≤ x ∧ x ≤ start + k * w then 1 else 0) +
        inRangeCount start w k xs := by
  simp only [inRangeCount, List.filter_cons]
  by_cases h : start ≤ x ∧ x ≤ start + k * w <;> simp [h, Nat.add_comm]

/-- C5: for every bucket width `w > 0` and every finite dataset, the sum
of all density-bucket occupancy counts equals the number of input values
falling inside the scan range `[start, start+k·w]` — out-of-range values
are excluded but none is silently lost. -/
theorem C5_bucket_partition_coverage (start w : ℚ) (k : ℕ)
    (data : List ℚ) (hw : 0 < w) (hk : 0 < k) :
    ∑ i ∈ Finset.range k, bucketCount start w k data i =
      inRangeCount start w k data := by
  induction data with
  | nil => simp [bucketCount, inRangeCount]
  | cons x xs ih =>
    simp only [bucketCount_cons, inRangeCount_cons, Finset.sum_add_distrib, ih]
    congr 1
    by_cases hin : start ≤ x ∧ x ≤ start + k * w
    · have hb : bucketOf start w k x =
          some (min (⌊(x - start) / w⌋.toNat) (k - 1)) := by
        rw [bucketOf, if_pos ⟨hk, hin⟩]
      set j := min (⌊(x - start) / w⌋.toNat) (k - 1) with hj
      have hjk : j < k := by omega
      rw [if_pos hin]
      calc ∑ i ∈ Finset.range k,
            (if bucketOf start w k x = some i then 1 else 0)
          = ∑ i ∈ Finset.range k, (if j = i then 1 else 0) := by
            refine Finset.sum_congr rfl (fun i _ => ?_)
            rw [hb]
            by_cases hji : j = i <;> simp [hji]
        _ = 1 := by rw [Finset.sum_ite_eq]; simp [hjk]
    · have hb : bucketOf start w k x = none := by
        rw [bucketOf, if_neg (by tauto)]
      rw [if_neg hin]
      refine Finset.sum_eq_zero (fun i _ => ?_)
      rw [hb]
      simp

/-- Witness for C5 on a concrete histogram: width 1, two buckets over
`[0, 2]`, data `[0, 1/2, 2, 5]` (the value `5` is out of range, the
value `2` sits on the closed right edge of the last bucket). -/
theorem C5_bucket_partition_coverage_witness :
    (0:ℚ) < 1 ∧ 0 < 2 ∧
    ∑ i ∈ Finset.range 2, bucketCount 0 1 2 [0, 1/2, 2, 5] i =
      inRangeCount 0 1 2 [0, 1/2, 2, 5] :=
  ⟨by norm_num, by norm_num,
    C5_bucket_partition_coverage 0 1 2 [0, 1/2, 2, 5] (by norm_num)
      (by norm_num)⟩

end Bidding

namespace Bidding

/-- The contract NumPy documents for `np.argsort` with its default
`kind='quicksort'` (used on the occupancy arrays at
`analyze_first_place_distribution.py` lines 39, 53 and 112): the output
lists each bucket index `0 .. hist.length-1` exactly once, ordered by
non-decreasing occupancy.  The default sort is not stable, so the
relative order of indices with equal occupancy is unspecified; any
output satisfying this predicate is an admissible result of the call. -/
def IsArgsortOf (hist : List ℕ) (a : List ℕ) : Prop :=
  a.Perm (List.range hist.length) ∧
  a.Pairwise (fun i j => hist.getD i 0 ≤ hist.getD j 0)

/-- `result[-kk:][::-1]` applied to an admissible `np.argsort` output
(`analyze_first_place_distribution.py` lines 39 and 53): the `kk` most
crowded buckets, most crowded first. -/
def top_indices_of (a : List ℕ) (kk : ℕ) : List ℕ :=
  (a.drop (a.length - kk)).reverse

/-- `result[:kk]` applied to an admissible `np.argsort` output
(line 112): the `kk` least crowded ("safest") buckets. -/
def safe_indices_of (a : List ℕ) (kk : ℕ) : List ℕ := a.take kk

theorem perm_pair_cases {b : List ℕ} (h : b.Perm [0, 1]) :
    b = [0, 1] ∨ b = [1, 0] := by
  have hlen : b.length = 2 := by simpa using h.length_eq
  cases b with
  | nil => simp at hlen
  | cons x t =>
    cases t with
    | nil => simp at hlen
    | cons y u =>
      cases u with
      | cons z w => simp at hlen
      | nil =>
        have hx : x ∈ [0, 1] := h.subset (by simp)
        have hy : y ∈ [0, 1] := h.subset (by simp)
        simp only [List.mem_cons, List.not_mem_nil, or_false] at hx hy
        rcases hx with rfl | rfl <;> rcases hy with rfl | rfl
        · have := h.count_eq 1
          simp at this
        · exact Or.inl rfl
        · exact Or.inr rfl
        · have := h.count_eq 0
          simp at this

/-- C6 counterexample: with the occupancy array `[5, 5]` both buckets
share the maximal (and minimal) occupancy.  Both index orders are
admissible outputs of the unstable default `np.argsort` — its tie order
is unspecified — and each of them violates the claimed ascending
bucket-start order in one of the two listings, because the `[::-1]`
reversal gives the most-crowded listing the reverse of the safe
listing's tie order. -/
theorem C6_counterexample :
    ([5, 5] : List ℕ).getD 0 0 = ([5, 5] : List ℕ).getD 1 0 ∧
    IsArgsortOf [5, 5] [0, 1] ∧ IsArgsortOf [5, 5] [1, 0] ∧
    top_indices_of [0, 1] 15 = [1, 0] ∧
    safe_indices_of [1, 0] 10 = [1, 0] ∧
    ¬ ((safe_indices_of [0, 1] 10).Pairwise (· ≤ ·) ∧
        (top_indices_of [0, 1] 15).Pairwise (· ≤ ·)) ∧
    ¬ ((safe_indices_of [1, 0] 10).Pairwise (· ≤ ·) ∧
        (top_indices_of [1, 0] 15).Pairwise (· ≤ ·)) := by
  refine ⟨rfl, ⟨by decide, by decide⟩, ⟨by decide, by decide⟩, rfl, rfl,
    ?_, ?_⟩
  · intro hcon
    exact absurd hcon.2 (by decide)
  · intro hcon
    exact absurd hcon.1 (by decide)

/-- C6 amended: for every admissible output of the unstable default
`np.argsort`, the safe-zone listing is ordered by non-decreasing
occupancy and the most-crowded listing by non-increasing occupancy; the
relative order of tied buckets is unspecified (the default sort is not
stable), and no admissible tie order makes tied buckets ascend by
bucket start in both listings, since the `[::-1]` reversal gives the
most-crowded listing the reverse of the argsort's tie order — witnessed
by the occupancy array `[5, 5]`, on which every admissible output
violates ascending order in one of the two listings. -/
theorem C6_amended_tie_order (hist a : List ℕ) (kk : ℕ)
    (h : IsArgsortOf hist a) :
    (safe_indices_of a kk).Pairwise
      (fun i j => hist.getD i 0 ≤ hist.getD j 0) ∧
    (top_indices_of a kk).Pairwise
      (fun i j => hist.getD j 0 ≤ hist.getD i 0) ∧
    (∀ b : List ℕ, IsArgsortOf [5, 5] b →
      ¬ ((safe_indices_of b 10).Pairwise (· ≤ ·) ∧
          (top_indices_of b 15).Pairwise (· ≤ ·))) := by
  refine ⟨List.Pairwise.sublist (List.take_sublist _ _) h.2, ?_, ?_⟩
  · rw [top_indices_of, List.pairwise_reverse]
    exact List.Pairwise.sublist (List.drop_sublist _ _) h.2
  · intro b hb
    have hperm : b.Perm [0, 1] := by
      have hp := hb.1
      rwa [show List.range ([5, 5] : List ℕ).length = [0, 1] from rfl] at hp
    rcases perm_pair_cases hperm with rfl | rfl
    · intro hcon
      exact absurd hcon.2 (by decide)
    · intro hcon
      exact absurd hcon.1 (by decide)

/-- Witness for C6's amended theorem at a concrete admissible argsort
output (`[0, 1]` for the occupancy array `[3, 7]`). -/
theorem C6_amended_tie_order_witness :
    IsArgsortOf [3, 7] [0, 1] ∧
    ((safe_indices_of [0, 1] 1).Pairwise
        (fun i j => ([3, 7] : List ℕ).getD i 0 ≤ ([3, 7] : List ℕ).getD j 0) ∧
      (top_indices_of [0, 1] 1).Pairwise
        (fun i j => ([3, 7] : List ℕ).getD j 0 ≤ ([3, 7] : List ℕ).getD i 0) ∧
      (∀ b : List ℕ, IsArgsortOf [5, 5] b →
        ¬ ((safe_indices_of b 10).Pairwise (· ≤ ·) ∧
            (top_indices_of b 15).Pairwise (· ≤ ·)))) :=
  ⟨⟨by decide, by decide⟩,
    C6_amended_tie_order [3, 7] [0, 1] 1 ⟨by decide, by decide⟩⟩

end Bidding

namespace Bidding

/-- Python/NumPy float modulo `a % m` for a positive modulus:
`a - m * floor(a / m)`. -/
def pyMod (a m : ℚ) : ℚ := a - m * ⌊a / m⌋

/-- `.astype(int)` / Python `int()`: truncation toward zero. -/
def astype_int (q : ℚ) : ℤ := if 0 ≤ q then ⌊q⌋ else ⌈q⌉

/-- `first_decimal = ((rates * 10) % 10).astype(int)`
(`analyze_first_place_distribution.py` line 64). -/
def first_decimal (x : ℚ) : ℤ := astype_int (pyMod (x * 10) 10)

/-- `second_decimal = ((rates * 100) % 10).astype(int)` (line 73). -/
def second_decimal (x : ℚ) : ℤ := astype_int (pyMod (x * 100) 10)

/-- `third_decimal = ((rates * 1000) % 10).astype(int)` (line 82). -/
def third_decimal (x : ℚ) : ℤ := astype_int (pyMod (x * 1000) 10)

/-- `Counter(digits)[d]`: the frequency table entry of digit `d`. -/
def digitFreq (digits : List ℤ) (d : ℤ) : ℕ := digits.count d

/-- Modelled from the spec: the "trailing three digits" extraction of
implied bid amounts (`amount mod 1000`, spec §4.4) appears in none of
the provided source files (they contain only the three decimal-digit
analyses), so it is embedded here following the spec's own formula. -/
def trailing_three (amount : ℤ) : ℤ := amount % 1000

theorem astype_int_pyMod_ten {y : ℚ} (hy : 0 ≤ y) :
    astype_int (pyMod y 10) = ⌊y⌋ % 10 := by
  have hb1 : ((⌊y / 10⌋ : ℤ) : ℚ) ≤ y / 10 := Int.floor_le (y / 10)
  have hb2 : y / 10 < (⌊y / 10⌋ : ℤ) + 1 := Int.lt_floor_add_one (y / 10)
  set b : ℤ := ⌊y / 10⌋ with hbdef
  have h1 : (10 : ℚ) * b ≤ y := by
    have := mul_le_mul_of_nonneg_left hb1 (by norm_num : (0:ℚ) ≤ 10)
    calc (10 : ℚ) * b ≤ 10 * (y / 10) := this
      _ = y := by ring
  have h2 : y < 10 * b + 10 := by
    have := mul_lt_mul_of_pos_left hb2 (by norm_num : (0:ℚ) < 10)
    calc y = 10 * (y / 10) := by ring
      _ < 10 * ((b : ℚ) + 1) := this
      _ = 10 * b + 10 := by ring
  have hnn : 0 ≤ pyMod y 10 := by rw [pyMod]; push_cast; linarith
  have hfloor : ⌊pyMod y 10⌋ = ⌊y⌋ - 10 * b := by
    rw [pyMod]
    rw [show y - 10 * ((b : ℤ) : ℚ) = y - (((10 * b : ℤ) : ℤ) : ℚ) by
      push_cast; ring]
    rw [Int.floor_sub_int]
  have hbl : 10 * b ≤ ⌊y⌋ := by
    rw [Int.le_floor]
    push_cast
    linarith
  have hbu : ⌊y⌋ < 10 * b + 10 := by
    rw [Int.floor_lt]
    push_cast
    linarith
  rw [astype_int, if_pos hnn, hfloor]
  omega

/-- C8: the Digit-Pattern Analyzer extracts, for every nonnegative value
`x` in the ratio array, the k-th decimal digit as
`floor(x · 10^k) mod 10` for k ∈ {1,2,3} (the source's scaled float
modulo `((x·10^k) % 10).astype(int)` equals that formula); independently
the trailing three digits of an implied bid amount are `amount mod 1000`
(spec-modelled, see `trailing_three`); and the `Counter` frequency table
entry of a digit `d` equals the number of array values whose extracted
digit is `d`. -/
theorem C8_digit_pattern (x : ℚ) (hx : 0 ≤ x) (amount : ℤ)
    (rates : List ℚ) (d : ℤ) :
    first_decimal x = ⌊x * 10⌋ % 10 ∧
    second_decimal x = ⌊x * 100⌋ % 10 ∧
    third_decimal x = ⌊x * 1000⌋ % 10 ∧
    trailing_three amount = amount % 1000 ∧
    digitFreq (rates.map first_decimal) d =
      (rates.filter (fun r => decide (first_decimal r = d))).length := by
  refine ⟨astype_int_pyMod_ten (by positivity),
    astype_int_pyMod_ten (by positivity),
    astype_int_pyMod_ten (by positivity), rfl, ?_⟩
  rw [digitFreq, List.count_eq_countP, List.countP_map,
    List.countP_eq_length_filter]
  congr 1

/-- Witness for C8 at the concrete ratio 87.745 (its first three decimal
digits are 7, 4, 5). -/
theorem C8_digit_pattern_witness :
    (0:ℚ) ≤ 87745 / 1000 ∧
    (first_decimal (87745 / 1000) = ⌊(87745 / 1000 : ℚ) * 10⌋ % 10 ∧
      second_decimal (87745 / 1000) = ⌊(87745 / 1000 : ℚ) * 100⌋ % 10 ∧
      third_decimal (87745 / 1000) = ⌊(87745 / 1000 : ℚ) * 1000⌋ % 10 ∧
      trailing_three 39000000 = 39000000 % 1000 ∧
      digitFreq ([(87745 / 1000 : ℚ)].map first_decimal) 7 =
        (([(87745 / 1000 : ℚ)]).filter
          (fun r => decide (first_decimal r = 7))).length) :=
  ⟨by norm_num, C8_digit_pattern (87745 / 1000) (by norm_num) 39000000
    [(87745 / 1000 : ℚ)] 7⟩

end Bidding

namespace Bidding

/-- Ascending insertion used by the sort underlying the pandas median. -/
def insertSorted (x : ℚ) : List ℚ → List ℚ
  | [] => [x]
  | y :: rest => if y ≤ x then y :: insertSorted x rest else x :: y :: rest

/-- Sort a list of rationals ascending. -/
def sortQ : List ℚ → List ℚ
  | [] => []
  | x :: rest => insertSorted x (sortQ rest)

/-- `pandas.Series.median`: the middle element of the sorted values, or
the mean of the two middle elements for an even count (NaN for an empty
series, embedded as the junk value 0). -/
def pdMedian (xs : List ℚ) : ℚ :=
  let s := sortQ xs
  let n := s.length
  if n = 0 then 0
  else if n % 2 = 1 then s.getD (n / 2) 0
  else (s.getD (n / 2 - 1) 0 + s.getD (n / 2) 0) / 2

/-- `optimal_rate = df_first['기초대비투찰률'].median()`
(`monte_carlo_simulation.py` line 244; identically the `추천_입찰률` of
`monte_carlo_simulation_korean.py` line 295). -/
def optimal_rate (df_first : List BidRecord) : ℚ :=
  pdMedian (df_first.map (·.bidRatioToBase))

/-- `optimal_amount = BASE_AMOUNT * optimal_rate / 100`
(`monte_carlo_simulation.py` line 245): the exact product, with no
integer conversion anywhere in that script. -/
def optimal_amount (df_first : List BidRecord) : ℚ :=
  BASE_AMOUNT * optimal_rate df_first / 100

/-- `"추천_입찰금액": int(BASE_AMOUNT * df_first['기초대비투찰률'].median() / 100)`
(`monte_carlo_simulation_korean.py` line 296): the strategy record's
implied bid amount, truncated toward zero by Python `int()`. -/
def recommended_bid_amount (base : ℚ) (df_first : List BidRecord) : ℤ :=
  astype_int (base * optimal_rate df_first / 100)

/-- Python float formatting with `:,.0f` (used to render
`optimal_amount` in the insights text, `monte_carlo_simulation.py`
line 247): rounds to the nearest integer, ties to even. -/
def pyFormat0f (q : ℚ) : ℤ :=
  if q - ⌊q⌋ < 1 / 2 then ⌊q⌋
  else if 1 / 2 < q - ⌊q⌋ then ⌊q⌋ + 1
  else if ⌊q⌋ % 2 = 0 then ⌊q⌋ else ⌊q⌋ + 1

/-- C9 counterexample: a winner history whose median rate is
87.0000013 % gives `optimal_amount = 33,930,000.507`; the recommendation
printed by `monte_carlo_simulation.py` renders it as 33,930,001
(rounded), while truncation to an integer currency unit would give
33,930,000 — so not every strategy recommendation's implied bid amount
is the truncation. -/
theorem C9_counterexample :
    optimal_amount [⟨1, 870000013 / 10000000⟩] = 33930000507 / 1000 ∧
    pyFormat0f (optimal_amount [⟨1, 870000013 / 10000000⟩]) = 33930001 ∧
    astype_int (optimal_amount [⟨1, 870000013 / 10000000⟩]) = 33930000 ∧
    pyFormat0f (optimal_amount [⟨1, 870000013 / 10000000⟩]) ≠
      astype_int (optimal_amount [⟨1, 870000013 / 10000000⟩]) := by
  have hq : optimal_amount [⟨1, 870000013 / 10000000⟩] = 33930000507 / 1000 := by
    norm_num [optimal_amount, optimal_rate, pdMedian, sortQ, insertSorted,
      BASE_AMOUNT]
  have hfl : ⌊(33930000507 / 1000 : ℚ)⌋ = 33930000 := by
    rw [Int.floor_eq_iff]
    norm_num
  have h2 : pyFormat0f (optimal_amount [⟨1, 870000013 / 10000000⟩]) =
      33930001 := by
    rw [hq, pyFormat0f, hfl]
    norm_num
  have h3 : astype_int (optimal_amount [⟨1, 870000013 / 10000000⟩]) =
      33930000 := by
    rw [hq, astype_int, if_pos (by norm_num), hfl]
  exact ⟨hq, h2, h3, by rw [h2, h3]; norm_num⟩

/-- C9 amended: the JSON strategy record of
`monte_carlo_simulation_korean.py` carries the implied bid amount
`baseAmount × selected rate / 100` truncated toward zero to an integer
currency unit (for a nonnegative product, the greatest integer not
exceeding the exact value); `monte_carlo_simulation.py` instead carries
the exact untruncated product and renders it rounded to the nearest
integer in its text report. -/
theorem C9_amended_bid_amount (base : ℚ) (df : List BidRecord)
    (h : 0 ≤ base * optimal_rate df / 100) :
    recommended_bid_amount base df = ⌊base * optimal_rate df / 100⌋ ∧
    ((recommended_bid_amount base df : ℚ) ≤ base * optimal_rate df / 100 ∧
      base * optimal_rate df / 100 < recommended_bid_amount base df + 1) ∧
    optimal_amount df = BASE_AMOUNT * optimal_rate df / 100 := by
  have h1 : recommended_bid_amount base df = ⌊base * optimal_rate df / 100⌋ := by
    rw [recommended_bid_amount, astype_int, if_pos h]
  refine ⟨h1, ⟨?_, ?_⟩, rfl⟩
  · rw [h1]; exact Int.floor_le _
  · rw [h1]; push_cast; exact Int.lt_floor_add_one _

/-- Witness for C9's amended theorem at the concrete announcement. -/
theorem C9_amended_bid_amount_witness :
    (0 : ℚ) ≤ 39000000 * optimal_rate [⟨1, 87745 / 1000⟩] / 100 ∧
    (recommended_bid_amount 39000000 [⟨1, 87745 / 1000⟩] =
      ⌊(39000000 : ℚ) * optimal_rate [⟨1, 87745 / 1000⟩] / 100⌋ ∧
    ((recommended_bid_amount 39000000 [⟨1, 87745 / 1000⟩] : ℚ) ≤
        39000000 * optimal_rate [⟨1, 87745 / 1000⟩] / 100 ∧
      (39000000 : ℚ) * optimal_rate [⟨1, 87745 / 1000⟩] / 100 <
        recommended_bid_amount 39000000 [⟨1, 87745 / 1000⟩] + 1) ∧
    optimal_amount [⟨1, 87745 / 1000⟩] =
      BASE_AMOUNT * optimal_rate [⟨1, 87745 / 1000⟩] / 100) :=
  ⟨by norm_num [optimal_rate, pdMedian, sortQ, insertSorted],
    C9_amended_bid_amount 39000000 [⟨1, 87745 / 1000⟩]
      (by norm_num [optimal_rate, pdMedian, sortQ, insertSorted])⟩

end Bidding
